import Mathlib

/-!
Verification of the note-taking application state logic
(src/src/app/page.tsx and src/src/app/types/note.ts).

Modelling conventions:
- ISO-8601 timestamp strings are modelled as natural-number instants
  (Date/toISOString is injective and order-preserving on instants, so
  comparisons and equalities of the strings coincide with those of the
  instants).
- The id generator (generateId, clock plus random suffix) is modelled as
  an oracle: each creation receives the generated id as a parameter.
- The source reads the wall clock separately for each
  new-Date-toISOString call; every clock read appears as an explicit
  parameter, in source order.
- JSON runtime values are modelled by the inductive type Json; the pair
  JSON.stringify / JSON.parse is the identity on such values.
-/

/-- The Note record of types/note.ts: id, content, createdAt, updatedAt
(timestamps as instants, see the modelling conventions above). -/
structure Note where
  id : String
  content : String
  createdAt : Nat
  updatedAt : Nat
deriving Repr, DecidableEq

/-- The NoteStore record of types/note.ts: the ordered note list and the
optional id of the active note. -/
structure NoteStore where
  notes : List Note
  activeNoteId : Option String
deriving Repr, DecidableEq

/-- The initial store of the useState call: empty list, no active note. -/
def emptyStore : NoteStore := { notes := [], activeNoteId := none }

/-- createNewNote (page.tsx lines 124-143). If the isCreating cool-down
flag is set the handler returns early and the store is unchanged.
Otherwise a new note is built with the generated id, empty content and
two separate clock reads t1 (createdAt) and t2 (updatedAt), prepended to
the list, and made active. -/
def createNewNote (isCreating : Bool) (newId : String) (t1 t2 : Nat)
    (s : NoteStore) : NoteStore :=
  if isCreating then s
  else
    { notes := { id := newId, content := "", createdAt := t1, updatedAt := t2 } :: s.notes,
      activeNoteId := some newId }

/-- updateCurrentNote (page.tsx lines 145-155). The guard is the
JavaScript falsiness test on activeNoteId, which is true both for null
and for the empty string. Otherwise every note whose id equals
activeNoteId gets the new content and updatedAt set to the clock read t;
other notes and activeNoteId are untouched. -/
def updateCurrentNote (content : String) (t : Nat) (s : NoteStore) : NoteStore :=
  match s.activeNoteId with
  | none => s
  | some a =>
    if a = "" then s
    else
      { s with
        notes := s.notes.map fun note =>
          if note.id = a then { note with content := content, updatedAt := t } else note }

/-- selectNote (page.tsx lines 157-161). The source looks the id up in
the list but discards the result; activeNoteId is set unconditionally
and the note list is untouched. -/
def selectNote (id : String) (s : NoteStore) : NoteStore :=
  { s with activeNoteId := some id }

/-- deleteNote (page.tsx lines 163-171). Filters out every note with the
given id; clears activeNoteId exactly when it equals that id. -/
def deleteNote (id : String) (s : NoteStore) : NoteStore :=
  { notes := s.notes.filter fun note => note.id ≠ id,
    activeNoteId := if s.activeNoteId = some id then none else s.activeNoteId }

/-! ## JSON values, serialization and hydration -/

/-- JSON runtime values (numbers restricted to the naturals used by this
development; no claim computes with JSON numbers). -/
inductive Json where
  | null : Json
  | bool : Bool → Json
  | num : Nat → Json
  | str : String → Json
  | arr : List Json → Json
  | obj : List (String × Json) → Json
deriving Repr

/-- The JSON value JSON.stringify produces for a Note (field order is the
object literal order of page.tsx lines 129-134, which stringify keeps). -/
def noteToJson (n : Note) : Json :=
  Json.obj [("id", Json.str n.id), ("content", Json.str n.content),
            ("createdAt", Json.num n.createdAt), ("updatedAt", Json.num n.updatedAt)]

/-- The JSON value JSON.stringify produces for a NoteStore. -/
def storeToJson (s : NoteStore) : Json :=
  Json.obj [("notes", Json.arr (s.notes.map noteToJson)),
            ("activeNoteId",
              match s.activeNoteId with
              | none => Json.null
              | some a => Json.str a)]

/-- Structural reading of a JSON value as a Note: this is what it means
for a parsed runtime value to be deep-equal to a Note. -/
def jsonToNote : Json → Option Note
  | Json.obj [("id", Json.str i), ("content", Json.str c),
              ("createdAt", Json.num ca), ("updatedAt", Json.num ua)] =>
    some { id := i, content := c, createdAt := ca, updatedAt := ua }
  | _ => none

/-- Structural reading of a list of JSON values as notes. -/
def decodeNotes : List Json → Option (List Note)
  | [] => some []
  | j :: rest =>
    match jsonToNote j, decodeNotes rest with
    | some n, some ns => some (n :: ns)
    | _, _ => none

/-- Structural reading of a JSON value as a NoteStore: this is what it
means for a parsed runtime value to be deep-equal to a NoteStore. -/
def jsonToStore : Json → Option NoteStore
  | Json.obj [("notes", Json.arr l), ("activeNoteId", act)] =>
    match decodeNotes l, act with
    | some ns, Json.null => some { notes := ns, activeNoteId := none }
    | some ns, Json.str a => some { notes := ns, activeNoteId := some a }
    | _, _ => none
  | _ => none

/-- The hydration effect (page.tsx lines 93-106), at the level of runtime
values. The input encodes the persisted string: none when the storage key
is absent (or the stored string is empty, which is falsy), some none when
JSON.parse throws on it, and some (some j) when it parses to the value j.
The source calls setNoteStore(parsed) before the activeNoteId lookup, so
even when that later lookup throws (the throw is caught and logged), the
state is already the parsed value, whatever its shape; only an absent key
or a parse failure leaves the initial empty store in place. The result is
the post-hydration state as a runtime (JSON-level) value. -/
def hydrate : Option (Option Json) → Json
  | none => storeToJson emptyStore
  | some none => storeToJson emptyStore
  | some (some j) => j

/-! ## The trailing-edge debounce (page.tsx lines 12-21)

The debounce closure keeps a single timeout handle; each call clears the
pending timeout (if any) and schedules the wrapped function with the
latest arguments wait milliseconds later. Its behaviour over a whole
session is modelled by an interpreter over the chronological list of
calls: a pending timer fires exactly when its fire time arrives before
the next call, and at quiescence (end of the list) the remaining pending
timer fires. The pending state is an Option, mirroring the single
timeout variable of the closure: at most one write is ever pending. -/

/-- Runs the debounced function on the chronological call list, given the
wait window and the currently pending (fire time, payload), and returns
the list of payloads actually passed to the wrapped function. -/
def runDebounce (wait : Nat) : List (Nat × α) → Option (Nat × α) → List α
  | [], none => []
  | [], some (_, p) => [p]
  | (t, a) :: rest, none => runDebounce wait rest (some (t + wait, a))
  | (t, a) :: rest, some (ft, p) =>
    if ft ≤ t then p :: runDebounce wait rest (some (t + wait, a))
    else runDebounce wait rest (some (t + wait, a))

/-- Checks that the chronological call list is ascending and that each
call after the first arrives strictly within the wait window of the
previous one. -/
def withinWindowB (wait : Nat) : List (Nat × α) → Bool
  | [] => true
  | [_] => true
  | (t1, _) :: (t2, a) :: rest =>
    decide (t1 ≤ t2) && decide (t2 < t1 + wait) && withinWindowB wait ((t2, a) :: rest)

/-- The payload of the last call, with a default for the empty list. -/
def lastSnap (p : α) : List (Nat × α) → α
  | [] => p
  | (_, a) :: rest => lastSnap a rest

/-! ## Session traces -/

/-- One user-level store mutation, with its clock reads. -/
inductive StoreAction where
  | create (newId : String) (t1 t2 : Nat)
  | select (id : String)
  | update (content : String) (t : Nat)
  | delete (id : String)
deriving Repr, DecidableEq

/-- Applies one action to the store (creation taken outside the
cool-down window, so with the isCreating flag clear). -/
def applyAction (s : NoteStore) : StoreAction → NoteStore
  | StoreAction.create newId t1 t2 => createNewNote false newId t1 t2 s
  | StoreAction.select id => selectNote id s
  | StoreAction.update content t => updateCurrentNote content t s
  | StoreAction.delete id => deleteNote id s

/-- Applies a chronological list of actions to the store. -/
def runActions (s : NoteStore) : List StoreAction → NoteStore
  | [] => s
  | act :: rest => runActions (applyAction s act) rest

/-- Checks that the clock reads along a trace are monotone starting from
the instant c: each read is at least the previous one, and within a
creation the createdAt read comes no later than the updatedAt read. -/
def timesOkB (c : Nat) : List StoreAction → Bool
  | [] => true
  | StoreAction.create _ t1 t2 :: rest => decide (c ≤ t1) && decide (t1 ≤ t2) && timesOkB t2 rest
  | StoreAction.update _ t :: rest => decide (c ≤ t) && timesOkB t rest
  | StoreAction.select _ :: rest => timesOkB c rest
  | StoreAction.delete _ :: rest => timesOkB c rest

/-- The clock bound after a trace: the last clock read, starting from c. -/
def clockAfter (c : Nat) : List StoreAction → Nat
  | [] => c
  | StoreAction.create _ _ t2 :: rest => clockAfter t2 rest
  | StoreAction.update _ t :: rest => clockAfter t rest
  | StoreAction.select _ :: rest => clockAfter c rest
  | StoreAction.delete _ :: rest => clockAfter c rest

/-! ## Invariants -/

/-- Timestamp well-formedness under the clock bound c: every note has
createdAt at most updatedAt, and updatedAt at most c. -/
def WF (s : NoteStore) (c : Nat) : Prop :=
  ∀ n ∈ s.notes, n.createdAt ≤ n.updatedAt ∧ n.updatedAt ≤ c

instance (s : NoteStore) (c : Nat) : Decidable (WF s c) := by
  unfold WF; infer_instance

/-- The active-note invariant of the spec data model: whenever
activeNoteId is present, exactly one note in the list carries that id. -/
def ActiveOk (s : NoteStore) : Prop :=
  match s.activeNoteId with
  | none => True
  | some a => s.notes.countP (fun n => n.id = a) = 1

instance (s : NoteStore) : Decidable (ActiveOk s) := by
  unfold ActiveOk
  cases s.activeNoteId <;> infer_instance

/-- Unpacks the invariant at a present active id. -/
theorem ActiveOk.count (s : NoteStore) (a : String) (hok : ActiveOk s)
    (ha : s.activeNoteId = some a) : s.notes.countP (fun n => n.id = a) = 1 := by
  unfold ActiveOk at hok
  rw [ha] at hok
  exact hok

/-- Creating N notes in a row: each entry supplies the generated id and
the two clock reads of that creation. -/
def createMany : List (String × Nat × Nat) → NoteStore → NoteStore
  | [], s => s
  | (i, t1, t2) :: rest, s => createMany rest (createNewNote false i t1 t2 s)

/-- The note a single creation builds from its id and two clock reads. -/
def mkNote : String × Nat × Nat → Note
  | (i, t1, t2) => { id := i, content := "", createdAt := t1, updatedAt := t2 }

/-! ## Shared lemmas -/

/-- Structural decoding inverts serialization on note lists. -/
theorem decodeNotes_map_noteToJson (l : List Note) :
    decodeNotes (l.map noteToJson) = some l := by
  induction l with
  | nil => rfl
  | cons n rest ih => simp [decodeNotes, ih, jsonToNote, noteToJson]

/-- Structural decoding inverts serialization on stores. -/
theorem jsonToStore_storeToJson (s : NoteStore) :
    jsonToStore (storeToJson s) = some s := by
  cases s with
  | mk notes act =>
    cases act with
    | none => simp [storeToJson, jsonToStore, decodeNotes_map_noteToJson]
    | some a => simp [storeToJson, jsonToStore, decodeNotes_map_noteToJson]

/-- The notes after a run of creations: the new notes in reverse creation
order, in front of the previous list. -/
theorem createMany_notes (l : List (String × Nat × Nat)) (s : NoteStore) :
    (createMany l s).notes = (l.map mkNote).reverse ++ s.notes := by
  induction l generalizing s with
  | nil => simp [createMany]
  | cons p rest ih =>
    obtain ⟨i, t1, t2⟩ := p
    simp [createMany, ih, createNewNote, mkNote, List.append_assoc]

/-- The active id after a run of creations: the id of the last creation,
or the previous active id when no creation happened. -/
theorem createMany_active (l : List (String × Nat × Nat)) (s : NoteStore) :
    (createMany l s).activeNoteId =
      (l.getLast?.map fun p => some p.1).getD s.activeNoteId := by
  induction l generalizing s with
  | nil => rfl
  | cons p rest ih =>
    obtain ⟨i, t1, t2⟩ := p
    cases rest with
    | nil => simp [createMany, createNewNote]
    | cons q rest2 =>
      rw [List.getLast?_cons_cons]
      simpa [createMany] using ih (createNewNote false i t1 t2 s)

/-- Two stores with the same fields are the same store. -/
theorem NoteStore.ext2 {s t : NoteStore} (h1 : s.notes = t.notes)
    (h2 : s.activeNoteId = t.activeNoteId) : s = t := by
  cases s; cases t; cases h1; cases h2; rfl

/-- A sample two-note store used by witnesses. -/
def sampleStore : NoteStore :=
  { notes := [{ id := "a", content := "hello", createdAt := 0, updatedAt := 1 },
              { id := "b", content := "bye", createdAt := 2, updatedAt := 3 }],
    activeNoteId := some "a" }

/-! ## Claim theorems -/

/-- C2 counterexample: starting from the empty store, where no note has id
x, selectNote with x is not a no-op: it changes the store by installing x
as the active id. -/
theorem selectNote_missing_id_not_noop :
    (∀ n ∈ emptyStore.notes, n.id ≠ "x") ∧ selectNote "x" emptyStore ≠ emptyStore := by
  decide

/-- C2 (amended): selectNote always sets activeNoteId to the given id,
whether or not a note with that id exists, and never touches the note
list, so no content, createdAt or updatedAt is mutated. -/
theorem selectNote_always_sets_active (s : NoteStore) (id : String) :
    (selectNote id s).activeNoteId = some id ∧ (selectNote id s).notes = s.notes :=
  ⟨rfl, rfl⟩

/-- C3 counterexample: a persisted value that is JSON-valid but not
Store-shaped (the number 42) does not leave the default empty store in
place; the parsed value itself becomes the state. -/
theorem hydrate_nonstore_json_not_default :
    hydrate (some (some (Json.num 42))) ≠ storeToJson emptyStore := by
  intro h
  exact Json.noConfusion h

/-- C3 (amended): hydration keeps the default empty store exactly when
the persisted value is absent or fails JSON parsing, and in those cases a
subsequent creation succeeds (yields one note); a value that parses to a
structurally valid snapshot replaces the default with that snapshot; but
any parsed JSON value, Store-shaped or not, becomes the state unvalidated. -/
theorem hydrate_spec :
    hydrate none = storeToJson emptyStore
  ∧ hydrate (some none) = storeToJson emptyStore
  ∧ (∀ s : NoteStore, jsonToStore (hydrate (some (some (storeToJson s)))) = some s)
  ∧ (∀ j : Json, hydrate (some (some j)) = j)
  ∧ (∀ i t1 t2, (createNewNote false i t1 t2 emptyStore).notes.length = 1) :=
  ⟨rfl, rfl, fun s => jsonToStore_storeToJson s, fun _ => rfl, fun _ _ _ => rfl⟩

/-- C4: deleteNote removes every note carrying the id and no other, keeps
the remaining notes in order, clears activeNoteId exactly when the
deleted id was active, and on a store satisfying the data-model invariant
is a no-op (deep equality) when no note has the id. -/
theorem deleteNote_spec (s : NoteStore) (id : String) :
    (∀ n ∈ (deleteNote id s).notes, n.id ≠ id)
  ∧ (deleteNote id s).notes.Sublist s.notes
  ∧ (∀ n ∈ s.notes, n.id ≠ id → n ∈ (deleteNote id s).notes)
  ∧ (s.activeNoteId = some id → (deleteNote id s).activeNoteId = none)
  ∧ (s.activeNoteId ≠ some id → (deleteNote id s).activeNoteId = s.activeNoteId)
  ∧ (ActiveOk s → (∀ n ∈ s.notes, n.id ≠ id) → deleteNote id s = s) := by
  refine ⟨?_, List.filter_sublist _, ?_, ?_, ?_, ?_⟩
  · intro n hn
    simpa using List.of_mem_filter hn
  · intro n hn hneq
    exact List.mem_filter.mpr ⟨hn, by simpa using hneq⟩
  · intro h
    simp [deleteNote, h]
  · intro h
    simp [deleteNote, h]
  · intro hok hnone
    have hact : s.activeNoteId ≠ some id := by
      intro heq
      have h1 := ActiveOk.count s id hok heq
      have h2 : 0 < s.notes.countP (fun n => n.id = id) := by omega
      obtain ⟨n, hn, hpn⟩ := List.countP_pos_iff.mp h2
      exact hnone n hn (by simpa using hpn)
    refine NoteStore.ext2 ?_ ?_
    · exact List.filter_eq_self.mpr fun n hn => by simpa using hnone n hn
    · simp [deleteNote, hact]

/-- C4 witness: on the sample store, deleting the active note clears the
active id, and deleting an id no note has leaves the store unchanged. -/
theorem deleteNote_spec_witness :
    (deleteNote "a" sampleStore).activeNoteId = none
  ∧ deleteNote "x" sampleStore = sampleStore :=
  ⟨(deleteNote_spec sampleStore "a").2.2.2.1 rfl,
   (deleteNote_spec sampleStore "x").2.2.2.2.2 (by decide) (by decide)⟩

/-- C10: selectNote keeps the note list identical, deleteNote keeps the
remaining notes as an order-preserving sublist, updateCurrentNote keeps
the id sequence (hence length and relative order) unchanged, and
createNewNote only prepends: the tail of the new list is the old list. -/
theorem order_preserved (s : NoteStore) (id content : String) (t : Nat)
    (i : String) (t1 t2 : Nat) :
    (selectNote id s).notes = s.notes
  ∧ (deleteNote id s).notes.Sublist s.notes
  ∧ (updateCurrentNote content t s).notes.map Note.id = s.notes.map Note.id
  ∧ (createNewNote false i t1 t2 s).notes.tail = s.notes := by
  refine ⟨rfl, List.filter_sublist _, ?_, rfl⟩
  cases h : s.activeNoteId with
  | none => simp [updateCurrentNote, h]
  | some a =>
    by_cases ha : a = ""
    · simp [updateCurrentNote, h, ha]
    · simp only [updateCurrentNote, h]
      rw [if_neg ha]
      show (s.notes.map _).map Note.id = s.notes.map Note.id
      rw [List.map_map]
      refine List.map_congr_left ?_
      intro n _
      by_cases hn : n.id = a <;> simp [Function.comp, hn]

/-! ## More shared lemmas -/

/-- ActiveOk at a present active id is exactly the count-one condition. -/
theorem activeOk_iff (s : NoteStore) (a : String) (ha : s.activeNoteId = some a) :
    ActiveOk s ↔ s.notes.countP (fun n => n.id = a) = 1 := by
  unfold ActiveOk
  rw [ha]

/-- Mapping an id-preserving function over the notes keeps per-id counts. -/
theorem countP_map_preserving (g : Note → Note) (hg : ∀ n, (g n).id = n.id)
    (a : String) (l : List Note) :
    (l.map g).countP (fun n => n.id = a) = l.countP (fun n => n.id = a) := by
  rw [List.countP_map]
  refine List.countP_congr ?_
  intro n _
  simp [Function.comp, hg n]

/-- Timestamp well-formedness is stable under a larger clock bound. -/
theorem WF.mono {s : NoteStore} {c d : Nat} (h : WF s c) (hcd : c ≤ d) : WF s d :=
  fun n hn => ⟨(h n hn).1, le_trans (h n hn).2 hcd⟩

/-- A creation with monotone clock reads preserves well-formedness. -/
theorem wf_create (s : NoteStore) (c t1 t2 : Nat) (i : String) (h : WF s c)
    (h1 : c ≤ t1) (h2 : t1 ≤ t2) : WF (createNewNote false i t1 t2 s) t2 := by
  intro n hn
  simp only [createNewNote, Bool.false_eq_true, if_false, List.mem_cons] at hn
  cases hn with
  | inl he => rw [he]; exact ⟨h2, le_rfl⟩
  | inr hm => exact ⟨(h n hm).1, le_trans (h n hm).2 (le_trans h1 h2)⟩

/-- An edit at a clock read past the bound preserves well-formedness. -/
theorem wf_update (s : NoteStore) (c t : Nat) (content : String) (h : WF s c)
    (hct : c ≤ t) : WF (updateCurrentNote content t s) t := by
  unfold updateCurrentNote
  cases s.activeNoteId with
  | none => exact WF.mono h hct
  | some a =>
    dsimp only
    by_cases he : a = ""
    · rw [if_pos he]; exact WF.mono h hct
    · rw [if_neg he]
      intro n hn
      simp only [List.mem_map] at hn
      obtain ⟨m, hm, rfl⟩ := hn
      by_cases hi : m.id = a
      · simp only [hi, if_true]
        exact ⟨le_trans (h m hm).1 (le_trans (h m hm).2 hct), le_rfl⟩
      · simp only [hi, if_false]
        exact ⟨(h m hm).1, le_trans (h m hm).2 hct⟩

/-- Deletion preserves well-formedness. -/
theorem wf_delete (s : NoteStore) (c : Nat) (id : String) (h : WF s c) :
    WF (deleteNote id s) c :=
  fun n hn => h n (List.mem_of_mem_filter hn)

/-- Selection preserves well-formedness. -/
theorem wf_select (s : NoteStore) (c : Nat) (id : String) (h : WF s c) :
    WF (selectNote id s) c :=
  fun n hn => h n hn

/-- Well-formedness is preserved along any trace with monotone clock
reads, with the final clock read as the new bound. -/
theorem wf_runActions (acts : List StoreAction) : ∀ (c : Nat) (s : NoteStore),
    WF s c → timesOkB c acts = true →
    WF (runActions s acts) (clockAfter c acts) := by
  induction acts with
  | nil => intro c s h _; exact h
  | cons act rest ih =>
    intro c s h hok
    cases act with
    | create i t1 t2 =>
      simp only [timesOkB, Bool.and_eq_true, decide_eq_true_eq] at hok
      obtain ⟨⟨h1, h2⟩, h3⟩ := hok
      exact ih t2 _ (wf_create s c t1 t2 i h h1 h2) h3
    | select id =>
      exact ih c _ (wf_select s c id h) hok
    | update content t =>
      simp only [timesOkB, Bool.and_eq_true, decide_eq_true_eq] at hok
      obtain ⟨h1, h2⟩ := hok
      exact ih t _ (wf_update s c t content h h1) h2
    | delete id =>
      exact ih c _ (wf_delete s c id h) hok

/-- A pending timer never fires while every following call comes strictly
before its fire time; only the final quiescent timer fires, carrying the
payload of the last call. -/
theorem runDebounce_chain (wait : Nat) (events : List (Nat × α)) : ∀ (ft : Nat) (p : α),
    (match events with | [] => True | (t, _) :: _ => t < ft) →
    withinWindowB wait events = true →
    runDebounce wait events (some (ft, p)) = [lastSnap p events] := by
  induction events with
  | nil => intro ft p _ _; rfl
  | cons e rest ih =>
    obtain ⟨t, a⟩ := e
    intro ft p hlt hw
    have hlt2 : t < ft := hlt
    simp only [runDebounce]
    rw [if_neg (by omega)]
    cases rest with
    | nil => rfl
    | cons e2 rest2 =>
      obtain ⟨t2, a2⟩ := e2
      simp only [withinWindowB, Bool.and_eq_true, decide_eq_true_eq] at hw
      obtain ⟨⟨hle, hlt3⟩, hw2⟩ := hw
      exact ih (t + wait) a hlt3 hw2

/-- C1 counterexample: the invariant holds of the empty store, yet
selecting an id no note has installs a dangling active id, so selectNote
does not preserve the invariant. -/
theorem selectNote_breaks_invariant :
    ActiveOk emptyStore ∧ ¬ ActiveOk (selectNote "x" emptyStore) := by
  decide

/-- C1 (amended): on a store satisfying the invariant, the invariant is
preserved by createNewNote when the generated id is fresh, by
updateCurrentNote, and by deleteNote; selectNote preserves it exactly
when precisely one note carries the selected id (with a missing id it
installs a dangling active id); hydration installs the parsed snapshot
without validation and is not covered. -/
theorem activeOk_preserved (s : NoteStore) (hok : ActiveOk s) :
    (∀ i t1 t2, i ∉ s.notes.map Note.id → ActiveOk (createNewNote false i t1 t2 s))
  ∧ (∀ content t, ActiveOk (updateCurrentNote content t s))
  ∧ (∀ id, ActiveOk (deleteNote id s))
  ∧ (∀ id, s.notes.countP (fun n => n.id = id) = 1 → ActiveOk (selectNote id s)) := by
  refine ⟨?_, ?_, ?_, ?_⟩
  · intro i t1 t2 hfresh
    have h0 : s.notes.countP (fun n => n.id = i) = 0 :=
      List.countP_eq_zero.mpr fun n hn => by
        simp only [decide_eq_true_eq]
        intro heq
        exact hfresh (List.mem_map.mpr ⟨n, hn, heq⟩)
    rw [activeOk_iff _ i rfl]
    simp [createNewNote, List.countP_cons, h0]
  · intro content t
    cases ha : s.activeNoteId with
    | none =>
      rw [show updateCurrentNote content t s = s by simp [updateCurrentNote, ha]]
      exact hok
    | some a =>
      by_cases he : a = ""
      · rw [show updateCurrentNote content t s = s by simp [updateCurrentNote, ha, he]]
        exact hok
      · have hact : (updateCurrentNote content t s).activeNoteId = some a := by
          simp [updateCurrentNote, ha, he]
        have hnotes : (updateCurrentNote content t s).notes =
            s.notes.map fun note =>
              if note.id = a then { note with content := content, updatedAt := t }
              else note := by
          simp [updateCurrentNote, ha, he]
        rw [activeOk_iff _ a hact, hnotes,
          countP_map_preserving _ (fun n => by by_cases hi : n.id = a <;> simp [hi]) a]
        exact (activeOk_iff s a ha).mp hok
  · intro id
    cases ha : s.activeNoteId with
    | none =>
      have : (deleteNote id s).activeNoteId = none := by simp [deleteNote, ha]
      unfold ActiveOk
      rw [this]
      trivial
    | some a =>
      by_cases hi : a = id
      · have : (deleteNote id s).activeNoteId = none := by simp [deleteNote, ha, hi]
        unfold ActiveOk
        rw [this]
        trivial
      · have hact : (deleteNote id s).activeNoteId = some a := by
          simp [deleteNote, ha, hi]
        rw [activeOk_iff _ a hact]
        show (s.notes.filter fun note => note.id ≠ id).countP (fun n => n.id = a) = 1
        rw [List.countP_filter]
        have hc : ∀ x ∈ s.notes,
            (decide (x.id = a) && decide ¬(x.id = id)) = true ↔ decide (x.id = a) = true := by
          intro x _
          by_cases hx : x.id = a
          · subst hx
            simp [hi]
          · simp [hx]
        rw [List.countP_congr hc]
        exact (activeOk_iff s a ha).mp hok
  · intro id hcnt
    rw [activeOk_iff _ id rfl]
    exact hcnt

/-- C1 witness: the amended preservation applied on the sample store,
whose active id a is carried by exactly one note. -/
theorem activeOk_preserved_witness :
    ActiveOk (createNewNote false "c" 4 4 sampleStore)
  ∧ ActiveOk (updateCurrentNote "hey" 5 sampleStore)
  ∧ ActiveOk (deleteNote "b" sampleStore)
  ∧ ActiveOk (selectNote "b" sampleStore) :=
  ⟨(activeOk_preserved sampleStore (by decide)).1 "c" 4 4 (by decide),
   (activeOk_preserved sampleStore (by decide)).2.1 "hey" 5,
   (activeOk_preserved sampleStore (by decide)).2.2.1 "b",
   (activeOk_preserved sampleStore (by decide)).2.2.2 "b" (by decide)⟩

/-- A store whose active id is the empty string, which one note carries:
the JavaScript falsiness guard treats it like a missing active id. -/
def emptyIdStore : NoteStore :=
  { notes := [{ id := "", content := "old", createdAt := 0, updatedAt := 0 }],
    activeNoteId := some "" }

/-- C5 counterexample: on a store whose non-null active id is the empty
string, updateCurrentNote does not replace the content of the active
note; the falsiness guard makes it a no-op. -/
theorem update_empty_string_active_id_noop :
    emptyIdStore.activeNoteId ≠ none
  ∧ (∀ n ∈ emptyIdStore.notes, n.content ≠ "new")
  ∧ updateCurrentNote "new" 5 emptyIdStore = emptyIdStore := by
  decide

/-- C5 (amended): updateCurrentNote is the identity when activeNoteId is
null or the empty string; otherwise it keeps activeNoteId and, position
by position, replaces the content and updatedAt of each note whose id is
the active id (exactly one under the data-model invariant; none if the
active id dangles) and leaves every other note, every id and every
createdAt unchanged. -/
theorem updateCurrentNote_spec (s : NoteStore) (content : String) (t : Nat) :
    (s.activeNoteId = none → updateCurrentNote content t s = s)
  ∧ (s.activeNoteId = some "" → updateCurrentNote content t s = s)
  ∧ (∀ a, s.activeNoteId = some a → a ≠ "" →
      (updateCurrentNote content t s).activeNoteId = s.activeNoteId
      ∧ List.Forall₂ (fun n m =>
            m.id = n.id ∧ m.createdAt = n.createdAt ∧
            (n.id = a → m.content = content ∧ m.updatedAt = t) ∧
            (n.id ≠ a → m = n))
          s.notes (updateCurrentNote content t s).notes) := by
  refine ⟨?_, ?_, ?_⟩
  · intro h
    simp [updateCurrentNote, h]
  · intro h
    simp [updateCurrentNote, h]
  · intro a ha he
    have hnotes : (updateCurrentNote content t s).notes =
        s.notes.map fun note =>
          if note.id = a then { note with content := content, updatedAt := t }
          else note := by
      simp [updateCurrentNote, ha, he]
    refine ⟨by simp [updateCurrentNote, ha, he], ?_⟩
    rw [hnotes, List.forall₂_map_right_iff, List.forall₂_same]
    intro n _
    by_cases hi : n.id = a
    · simp [hi]
    · simp [hi]

/-- C5 witness: the amended description applied on the sample store with
active id a and on the empty store with no active id. -/
theorem updateCurrentNote_spec_witness :
    updateCurrentNote "z" 1 emptyStore = emptyStore
  ∧ ((updateCurrentNote "ciao" 7 sampleStore).activeNoteId = sampleStore.activeNoteId
     ∧ List.Forall₂ (fun n m =>
           m.id = n.id ∧ m.createdAt = n.createdAt ∧
           (n.id = "a" → m.content = "ciao" ∧ m.updatedAt = 7) ∧
           (n.id ≠ "a" → m = n))
         sampleStore.notes (updateCurrentNote "ciao" 7 sampleStore).notes) :=
  ⟨(updateCurrentNote_spec emptyStore "z" 1).1 rfl,
   (updateCurrentNote_spec sampleStore "ciao" 7).2.2 "a" rfl (by decide)⟩

/-- C6 counterexample: the source reads the clock once for createdAt and
again for updatedAt; when the clock advances between the reads (here 0
then 1) the created note has createdAt different from updatedAt, against
the claim that both equal the creation time. -/
theorem createNewNote_clock_tick :
    ∃ n ∈ (createNewNote false "a" 0 1 emptyStore).notes, n.createdAt ≠ n.updatedAt := by
  decide

/-- C6 (amended): a creation outside the cool-down prepends a note with
the generated id, empty content, createdAt the first clock read and
updatedAt the second (equal whenever the clock does not advance between
the reads), and makes it active; creating N notes from the empty store
yields N notes in reverse creation order (newest first), with the last
created note active, and with pairwise distinct ids whenever the
generated ids are distinct. -/
theorem createNote_spec (l : List (String × Nat × Nat)) :
    (createMany l emptyStore).notes = (l.map mkNote).reverse
  ∧ (createMany l emptyStore).notes.length = l.length
  ∧ (createMany l emptyStore).activeNoteId = l.getLast?.map (fun p => p.1)
  ∧ ((l.map fun p => p.1).Nodup → ((createMany l emptyStore).notes.map Note.id).Nodup)
  ∧ (∀ s i t1 t2, (createNewNote false i t1 t2 s).notes = mkNote (i, t1, t2) :: s.notes
      ∧ (createNewNote false i t1 t2 s).activeNoteId = some i
      ∧ (mkNote (i, t1, t2)).content = "" ∧ (mkNote (i, t1, t2)).createdAt = t1
      ∧ (mkNote (i, t1, t2)).updatedAt = t2) := by
  have hnotes : (createMany l emptyStore).notes = (l.map mkNote).reverse := by
    rw [createMany_notes]
    simp [emptyStore]
  refine ⟨hnotes, ?_, ?_, ?_, ?_⟩
  · rw [hnotes]
    simp
  · rw [createMany_active]
    cases l.getLast? <;> rfl
  · intro h
    have hids : (createMany l emptyStore).notes.map Note.id = (l.map fun p => p.1).reverse := by
      rw [hnotes, List.map_reverse, List.map_map]
      congr 1
    rw [hids, List.nodup_reverse]
    exact h
  · intro s i t1 t2
    exact ⟨rfl, rfl, rfl, rfl, rfl⟩

/-- C6 witness: two creations with distinct ids, instantiating the
Nodup hypothesis of the amended statement. -/
theorem createNote_spec_witness :
    ((createMany [("a", 0, 0), ("b", 1, 1)] emptyStore).notes.map Note.id).Nodup :=
  (createNote_spec [("a", 0, 0), ("b", 1, 1)]).2.2.2.1 (by decide)

/-- C7: along any trace of operations whose clock reads are monotone,
every note of the resulting store has createdAt at most updatedAt; and a
single edit on a store whose timestamps respect the clock bound keeps,
position by position, every id and every createdAt unchanged and never
decreases any updatedAt. -/
theorem timestamp_invariant :
    (∀ (acts : List StoreAction) (c : Nat) (s : NoteStore), WF s c →
      timesOkB c acts = true →
      ∀ n ∈ (runActions s acts).notes, n.createdAt ≤ n.updatedAt)
  ∧ (∀ (s : NoteStore) (c t : Nat) (content : String), WF s c → c ≤ t →
      List.Forall₂ (fun n m =>
          m.id = n.id ∧ m.createdAt = n.createdAt ∧ n.updatedAt ≤ m.updatedAt)
        s.notes (updateCurrentNote content t s).notes) := by
  constructor
  · intro acts c s h hok n hn
    exact (wf_runActions acts c s h hok n hn).1
  · intro s c t content h hct
    cases ha : s.activeNoteId with
    | none =>
      rw [show updateCurrentNote content t s = s by simp [updateCurrentNote, ha]]
      exact List.forall₂_same.mpr fun n _ => ⟨rfl, rfl, le_rfl⟩
    | some a =>
      by_cases he : a = ""
      · rw [show updateCurrentNote content t s = s by simp [updateCurrentNote, ha, he]]
        exact List.forall₂_same.mpr fun n _ => ⟨rfl, rfl, le_rfl⟩
      · have hnotes : (updateCurrentNote content t s).notes =
            s.notes.map fun note =>
              if note.id = a then { note with content := content, updatedAt := t }
              else note := by
          simp [updateCurrentNote, ha, he]
        rw [hnotes, List.forall₂_map_right_iff, List.forall₂_same]
        intro n hn
        by_cases hi : n.id = a
        · simp only [hi, if_true]
          exact ⟨trivial, trivial, le_trans (h n hn).2 hct⟩
        · simp only [hi, if_false]
          exact ⟨trivial, trivial, le_rfl⟩

/-- C7 witness: a concrete create-then-edit trace from the empty store,
and a concrete edit of the sample store. -/
theorem timestamp_invariant_witness :
    (∀ n ∈ (runActions emptyStore
        [StoreAction.create "a" 0 1, StoreAction.update "hi" 2]).notes,
      n.createdAt ≤ n.updatedAt)
  ∧ List.Forall₂ (fun n m =>
        m.id = n.id ∧ m.createdAt = n.createdAt ∧ n.updatedAt ≤ m.updatedAt)
      sampleStore.notes (updateCurrentNote "x" 9 sampleStore).notes :=
  ⟨timestamp_invariant.1 [StoreAction.create "a" 0 1, StoreAction.update "hi" 2]
      0 emptyStore (by decide) (by decide),
   timestamp_invariant.2 sampleStore 3 9 "x" (by decide) (by decide)⟩

/-- C8: when every call of a burst arrives strictly within the 500ms
persistence window of the previous one, the debounced save performs
exactly one write, and its payload is the store snapshot of the last
call; intermediate snapshots are never written (the model keeps at most
one pending write by construction, mirroring the single timeout handle). -/
theorem debounce_coalesces (e : Nat × NoteStore) (es : List (Nat × NoteStore))
    (h : withinWindowB 500 (e :: es) = true) :
    runDebounce 500 (e :: es) none = [lastSnap e.2 es] := by
  obtain ⟨t, a⟩ := e
  simp only [runDebounce]
  cases es with
  | nil => rfl
  | cons e2 rest =>
    obtain ⟨t2, a2⟩ := e2
    simp only [withinWindowB, Bool.and_eq_true, decide_eq_true_eq] at h
    obtain ⟨⟨hle, hlt⟩, hw⟩ := h
    exact runDebounce_chain 500 ((t2, a2) :: rest) (t + 500) a hlt hw

/-- C8 witness: two rapid mutations 100ms apart yield a single write
whose payload is the second snapshot. -/
theorem debounce_coalesces_witness :
    runDebounce 500 [(0, emptyStore), (100, sampleStore)] none = [sampleStore] :=
  debounce_coalesces (0, emptyStore) [(100, sampleStore)] (by decide)

/-- C9: serializing any store as the persistence layer writes it and
reading the parse result back as hydration does yields a value deep-equal
to the original store. -/
theorem store_roundtrip (s : NoteStore) :
    jsonToStore (hydrate (some (some (storeToJson s)))) = some s :=
  jsonToStore_storeToJson s
